import Mathlib

/-!
Verification development for the `system-tray` client library.

The Rust sources are embedded shallowly: pure decoding functions become Lean
functions over an explicit model of D-Bus values, fallible code returns
`Except`, and the concurrent event-emitting tasks of the client become a
labelled transition system over an explicit state.
-/

namespace SystemTray

/-! ## Error model (src/error.rs)

`Error` mirrors the library's error enum.  The zbus transport / variant
errors carry a message string in place of the foreign payload. -/

inductive Error where
  | missingProperty (field : String)
  | eventSend
  | zbus (msg : String)
  | zbusFdo (msg : String)
  | zbusVariant (msg : String)
  | invalidData (msg : String)
  deriving Repr, DecidableEq

/-! ## D-Bus value model (zvariant values, as used by the sources)

Only the value shapes the sources downcast to are represented: strings,
32-bit signed integers, bytes, booleans, object paths, arrays and
structures.  `downcast*` models `zvariant` `downcast_ref`, which succeeds
exactly when the value has the requested shape. -/

inductive DValue where
  | str (s : String)
  | i32 (n : Int)
  | u8 (n : Nat)
  | bool (b : Bool)
  | objPath (p : String)
  | arr (items : List DValue)
  | structV (fields : List DValue)

def downcastStr : DValue → Except Error String
  | .str s => .ok s
  | _ => .error (.zbusVariant "type mismatch")

def downcastI32 : DValue → Except Error Int
  | .i32 n => .ok n
  | _ => .error (.zbusVariant "type mismatch")

def downcastU8 : DValue → Except Error Nat
  | .u8 n => .ok n
  | _ => .error (.zbusVariant "type mismatch")

def downcastBool : DValue → Except Error Bool
  | .bool b => .ok b
  | _ => .error (.zbusVariant "type mismatch")

def downcastObjPath : DValue → Except Error String
  | .objPath p => .ok p
  | _ => .error (.zbusVariant "type mismatch")

def downcastArr : DValue → Except Error (List DValue)
  | .arr items => .ok items
  | _ => .error (.zbusVariant "type mismatch")

def downcastStructV : DValue → Except Error (List DValue)
  | .structV fields => .ok fields
  | _ => .error (.zbusVariant "type mismatch")

/-- Model of `Option<Result<T>>::transpose`. -/
def transposeOpt : Option (Except Error α) → Except Error (Option α)
  | none => .ok none
  | some (.ok a) => .ok (some a)
  | some (.error e) => .error e

/-! ## Property maps (src/dbus/mod.rs)

`DBusProps` wraps the map of properties fetched from a proxy.  The
`HashMap<String, OwnedValue>` is modelled as an association list with
unique keys; `get` is lookup followed by a downcast. -/

def DBusProps : Type := List (String × DValue)

/-- Model of `HashMap::get`: the value stored at `key`, if present. -/
def DBusProps.lookup (props : DBusProps) (key : String) : Option DValue :=
  (List.find? (fun p => p.1 == key) props).map (fun p => p.2)

/-- `DBusProps::get::<str>` composed with the string conversion
(`get_string`). -/
def DBusProps.get_string (props : DBusProps) (key : String) :
    Option (Except Error String) :=
  (props.lookup key).map downcastStr

/-- `DBusProps::get_object_path`. -/
def DBusProps.get_object_path (props : DBusProps) (key : String) :
    Option (Except Error String) :=
  (props.lookup key).map downcastObjPath

/-- `DBusProps::get::<i32>`. -/
def DBusProps.get_i32 (props : DBusProps) (key : String) :
    Option (Except Error Int) :=
  (props.lookup key).map downcastI32

/-- `DBusProps::get::<bool>` (the inferred type at the `ItemIsMenu` use
site). -/
def DBusProps.get_bool (props : DBusProps) (key : String) :
    Option (Except Error Bool) :=
  (props.lookup key).map downcastBool

/-! ## Item model (src/item.rs) -/

inductive Category where
  | applicationStatus
  | communications
  | systemServices
  | hardware
  deriving Repr, DecidableEq

/-- `impl From<&str> for Category`: unknown strings fall back to
`ApplicationStatus`. -/
def Category.fromStr : String → Category
  | "Communications" => .communications
  | "SystemServices" => .systemServices
  | "Hardware" => .hardware
  | _ => .applicationStatus

inductive Status where
  | unknown
  | passive
  | active
  | needsAttention
  deriving Repr, DecidableEq

/-- `impl From<&str> for Status`: unknown strings fall back to `Unknown`. -/
def Status.fromStr : String → Status
  | "Passive" => .passive
  | "Active" => .active
  | "NeedsAttention" => .needsAttention
  | _ => .unknown

structure IconPixmap where
  width : Int
  height : Int
  pixels : List Nat
  deriving Repr, DecidableEq

/-- `IconPixmap::from_array`, translated verbatim: note that the source
reads both `width` and `height` with `fields.first()` (the height line
repeats the width line, including its error message), rather than reading
the height from `fields.get(1)`. -/
def IconPixmap.from_array (array : List DValue) :
    Except Error (List IconPixmap) :=
  array.mapM (fun pixmap => do
    let fields ← downcastStructV pixmap
    let width ← match fields.head? with
      | none => Except.error (Error.invalidData "invalid or missing width")
      | some v => downcastI32 v
    let height ← match fields.head? with
      | none => Except.error (Error.invalidData "invalid or missing width")
      | some v => downcastI32 v
    let pixelValues ← match fields.get? 2 with
      | none => Except.error (Error.invalidData "invalid or missing pixel values")
      | some v => downcastArr v
    let pixels ← pixelValues.mapM downcastU8
    pure { width := width, height := height, pixels := pixels })

structure Tooltip where
  icon_name : String
  icon_data : List IconPixmap
  title : String
  description : String
  deriving Repr, DecidableEq

/-- `impl TryFrom<&Structure> for Tooltip`. -/
def Tooltip.tryFromStructure (fields : List DValue) : Except Error Tooltip := do
  let icon_name ← match fields.head? with
    | none => Except.error (Error.invalidData "icon_name")
    | some v => downcastStr v
  let icon_data ← match fields.get? 1 with
    | none => Except.error (Error.invalidData "icon_data")
    | some v => do IconPixmap.from_array (← downcastArr v)
  let title ← match fields.get? 2 with
    | none => Except.error (Error.invalidData "title")
    | some v => downcastStr v
  let description ← match fields.get? 3 with
    | none => Except.error (Error.invalidData "description")
    | some v => downcastStr v
  pure { icon_name := icon_name, icon_data := icon_data,
         title := title, description := description }

structure StatusNotifierItem where
  id : String
  category : Category
  title : Option String
  status : Status
  window_id : Nat
  icon_theme_path : Option String
  icon_name : Option String
  icon_pixmap : Option (List IconPixmap)
  overlay_icon_name : Option String
  overlay_icon_pixmap : Option (List IconPixmap)
  attention_icon_name : Option String
  attention_icon_pixmap : Option (List IconPixmap)
  attention_movie_name : Option String
  tool_tip : Option Tooltip
  item_is_menu : Bool
  menu : Option String
  deriving Repr, DecidableEq

/-- `DBusProps::get_category`. -/
def DBusProps.get_category (props : DBusProps) : Except Error Category :=
  (transposeOpt (props.get_string "Category")).map
    (fun o => (o.map Category.fromStr).getD .applicationStatus)

/-- `DBusProps::get_status`. -/
def DBusProps.get_status (props : DBusProps) : Except Error Status :=
  (transposeOpt (props.get_string "Status")).map
    (fun o => (o.map Status.fromStr).getD .unknown)

/-- `DBusProps::get_icon_pixmap`. -/
def DBusProps.get_icon_pixmap (props : DBusProps) (key : String) :
    Option (Except Error (List IconPixmap)) :=
  ((props.lookup key).map downcastArr).map
    (fun r => r.bind IconPixmap.from_array)

/-- `DBusProps::get_tooltip`. -/
def DBusProps.get_tooltip (props : DBusProps) :
    Option (Except Error Tooltip) :=
  ((props.lookup "ToolTip").map downcastStructV).map
    (fun r => r.bind Tooltip.tryFromStructure)

/-- Rust `i as u32` for an `i32` value: two's-complement wrap into
`[0, 2^32)`. -/
def i32AsU32 (i : Int) : Nat := (i % (2 ^ 32 : Int)).toNat

/-- `impl TryFrom<DBusProps> for StatusNotifierItem`: fails with
`MissingProperty("Id")` when `Id` is absent, otherwise builds the item
field by field, propagating any downcast error of a present property. -/
def StatusNotifierItem.tryFromProps (props : DBusProps) :
    Except Error StatusNotifierItem :=
  match props.get_string "Id" with
  | none => .error (.missingProperty "Id")
  | some idRes => do
    let id ← idRes
    let title ← transposeOpt (props.get_string "Title")
    let status ← props.get_status
    let window_id ← (transposeOpt (props.get_i32 "WindowId")).map
      (fun o => i32AsU32 (o.getD 0))
    let icon_theme_path ← transposeOpt (props.get_string "IconThemePath")
    let icon_name ← transposeOpt (props.get_string "IconName")
    let icon_pixmap ← transposeOpt (props.get_icon_pixmap "IconPixmap")
    let overlay_icon_name ← transposeOpt (props.get_string "OverlayIconName")
    let overlay_icon_pixmap ← transposeOpt (props.get_icon_pixmap "OverlayIconPixmap")
    let attention_icon_name ← transposeOpt (props.get_string "AttentionIconName")
    let attention_icon_pixmap ← transposeOpt (props.get_icon_pixmap "AttentionIconPixmap")
    let attention_movie_name ← transposeOpt (props.get_string "AttentionMovieName")
    let tool_tip ← transposeOpt props.get_tooltip
    let item_is_menu ← (transposeOpt (props.get_bool "ItemIsMenu")).map
      (fun o => o.getD false)
    let category ← props.get_category
    let menu ← transposeOpt (props.get_object_path "Menu")
    pure { id := id, category := category, title := title, status := status,
           window_id := window_id, icon_theme_path := icon_theme_path,
           icon_name := icon_name, icon_pixmap := icon_pixmap,
           overlay_icon_name := overlay_icon_name,
           overlay_icon_pixmap := overlay_icon_pixmap,
           attention_icon_name := attention_icon_name,
           attention_icon_pixmap := attention_icon_pixmap,
           attention_movie_name := attention_movie_name,
           tool_tip := tool_tip, item_is_menu := item_is_menu, menu := menu }

/-! ## Address parsing (src/client.rs, `parse_address`) -/

/-- Model of Rust `str::split_once('/')` on the character list: the parts
before and after the first `'/'`, or `none` when there is no `'/'`. -/
def splitOnceSlash : List Char → Option (List Char × List Char)
  | [] => none
  | c :: rest =>
    if c = '/' then some ([], rest)
    else (splitOnceSlash rest).map (fun dp => (c :: dp.1, dp.2))

/-- `parse_address`: `bus-name/obj/path` splits at the first slash into the
bus name and the re-prefixed object path; a slash-free input keeps the
whole string as destination with object path `/StatusNotifierItem`. -/
def parse_address (address : String) : String × String :=
  match splitOnceSlash address.data with
  | none => (address, "/StatusNotifierItem")
  | some dp => (String.mk dp.1, String.mk ('/' :: dp.2))

/-! ## Menu model (src/menu.rs) -/

inductive MenuType where
  | separator
  | standard
  deriving Repr, DecidableEq

/-- `impl From<&str> for MenuType`. -/
def MenuType.fromStr : String → MenuType
  | "separator" => .separator
  | _ => .standard

inductive ToggleType where
  | checkmark
  | radio
  | cannotBeToggled
  deriving Repr, DecidableEq

/-- `impl From<&str> for ToggleType`. -/
def ToggleType.fromStr : String → ToggleType
  | "checkmark" => .checkmark
  | "radio" => .radio
  | _ => .cannotBeToggled

inductive ToggleState where
  | on
  | off
  | indeterminate
  deriving Repr, DecidableEq

/-- `impl From<i32> for ToggleState`: 0 is Off, 1 is On, anything else is
Indeterminate. -/
def ToggleState.fromInt (value : Int) : ToggleState :=
  if value = 0 then .off else if value = 1 then .on else .indeterminate

inductive Disposition where
  | normal
  | informative
  | warning
  | alert
  deriving Repr, DecidableEq

/-- `impl From<&str> for Disposition`. -/
def Disposition.fromStr : String → Disposition
  | "informative" => .informative
  | "warning" => .warning
  | "alert" => .alert
  | _ => .normal

/-- `MenuItem` (recursive through `submenu`, hence a single-constructor
inductive rather than a structure). -/
inductive MenuItem where
  | mk
    (id : Int)
    (menu_type : MenuType)
    (label : Option String)
    (enabled : Bool)
    (visible : Bool)
    (icon_name : Option String)
    (icon_data : Option (List Nat))
    (shortcut : Option (List (List String)))
    (toggle_type : ToggleType)
    (toggle_state : ToggleState)
    (children_display : Option String)
    (disposition : Disposition)
    (submenu : List MenuItem)

structure TrayMenu where
  id : Nat
  submenus : List MenuItem

/-- The label transformation applied by `impl TryFrom<&OwnedValue> for
MenuItem`: `label.replace('_', "")`, i.e. every underscore character is
removed. -/
def stripUnderscores (label : String) : String :=
  String.mk (label.data.filter (fun c => c ≠ '_'))

structure MenuItemUpdate where
  label : Option (Option String)
  enabled : Option Bool
  visible : Option Bool
  icon_name : Option (Option String)
  icon_data : Option (Option (List Nat))
  toggle_state : Option ToggleState
  disposition : Option Disposition
  deriving Repr, DecidableEq

/-- `Default` for `MenuItemUpdate`: all fields absent. -/
def MenuItemUpdate.default : MenuItemUpdate :=
  { label := none, enabled := none, visible := none, icon_name := none,
    icon_data := none, toggle_state := none, disposition := none }

structure MenuDiff where
  id : Int
  update : MenuItemUpdate
  remove : List String
  deriving Repr, DecidableEq

/-- Modelled from the spec: the wire payload of the DBusMenu
`ItemsPropertiesUpdated` signal.  Its Rust definition lives in
`src/dbus/dbus_menu_proxy.rs`, which is not part of the provided sources;
per the spec, `PropertiesUpdate` has an `updated` array of
`(i32 id, dict)` entries and a `removed` array of
`(i32 id, array<string> names)` entries. -/
structure UpdatedProps where
  id : Int
  fields : List (String × DValue)

/-- Modelled from the spec: one entry of the `removed` array, an id and
the removed property names. -/
structure RemovedProps where
  id : Int
  fields : List String

/-- Modelled from the spec: the full `ItemsPropertiesUpdated` payload. -/
structure PropertiesUpdate where
  updated : List UpdatedProps
  removed : List RemovedProps

/-- `HashMap::get` on an `UpdatedProps` property dict. -/
def dictGet (dict : List (String × DValue)) (key : String) : Option DValue :=
  (List.find? (fun p => p.1 == key) dict).map (fun p => p.2)

/-- `get_icon_data`: every array element downcast to a byte. -/
def get_icon_data (array : List DValue) : Except Error (List Nat) :=
  array.mapM downcastU8

/-- `impl TryFrom<UpdatedProps> for MenuItemUpdate`: present keys are
captured, with only an ill-typed `icon-data` able to fail. -/
def MenuItemUpdate.tryFromUpdatedProps (value : UpdatedProps) :
    Except Error MenuItemUpdate := do
  let dict := value.fields
  let icon_data ← match dictGet dict "icon-data" with
    | some v => do pure (some (some (← get_icon_data (← downcastArr v))))
    | none => pure none
  pure { label := (dictGet dict "label").map (fun v => (downcastStr v).toOption),
         enabled := (dictGet dict "enabled").bind (fun v => (downcastBool v).toOption),
         visible := (dictGet dict "visible").bind (fun v => (downcastBool v).toOption),
         icon_name := (dictGet dict "icon-name").map (fun v => (downcastStr v).toOption),
         icon_data := icon_data,
         toggle_state := ((dictGet dict "toggle-state").bind
           (fun v => (downcastI32 v).toOption)).map ToggleState.fromInt,
         disposition := ((dictGet dict "disposition").bind
           (fun v => (downcastStr v).toOption)).map Disposition.fromStr }

/-! The `HashMap<i32, MenuDiff>` used by `TryFrom<PropertiesUpdate> for
Vec<MenuDiff>` is modelled as an association list; `insert` replaces the
value when the key is present (HashMap iteration order is unspecified, so
every claim about the produced `Vec` is stated order-insensitively). -/

abbrev DiffMap : Type := List (Int × MenuDiff)

/-- `HashMap::insert`. -/
def DiffMap.insert (m : DiffMap) (k : Int) (v : MenuDiff) : DiffMap :=
  if (List.any m (fun p => p.1 == k)) then
    List.map (fun p => if p.1 == k then (k, v) else p) m
  else m ++ [(k, v)]

/-- `HashMap::entry(k).or_insert_with(default-diff)` followed by
`update.remove = names`: the `remove` field of the entry at `k` is set
(overwritten) to `names`, inserting a fresh default diff first when the
key is absent. -/
def DiffMap.setRemove (m : DiffMap) (k : Int) (names : List String) : DiffMap :=
  if (List.any m (fun p => p.1 == k)) then
    List.map (fun p =>
      if p.1 == k then (p.1, { p.2 with remove := names }) else p) m
  else m ++ [(k, { id := k, update := MenuItemUpdate.default, remove := names })]

/-- The body of the `for updated in value.updated` loop: convert the dict
and insert (replacing any entry with the same id). -/
def updatedFold (m : DiffMap) (updated : UpdatedProps) : Except Error DiffMap := do
  let upd ← MenuItemUpdate.tryFromUpdatedProps updated
  pure (m.insert updated.id { id := updated.id, update := upd, remove := [] })

/-- The body of the `for removed in value.removed` loop. -/
def removedFold (m : DiffMap) (removed : RemovedProps) : DiffMap :=
  m.setRemove removed.id removed.fields

/-- `impl TryFrom<PropertiesUpdate> for Vec<MenuDiff>`: fold the `updated`
entries into the map (converting each dict, duplicate ids replacing), then
fold the `removed` entries (merging into existing entries), and return the
values. -/
def menuDiffsFrom (value : PropertiesUpdate) : Except Error (List MenuDiff) := do
  let res ← value.updated.foldlM updatedFold ([] : DiffMap)
  let res := value.removed.foldl removedFold res
  pure (res.map (fun p => p.2))

/-- Keys of the intermediate `HashMap<i32, MenuDiff>`. -/
def keysOf (m : DiffMap) : List Int := m.map (fun p => p.1)

/-- Invariant of the intermediate map: every entry's diff carries its key
as its id, and keys are unique (a `HashMap` invariant). -/
def GoodMap (m : DiffMap) : Prop :=
  (∀ p ∈ m, p.2.id = p.1) ∧ (keysOf m).Nodup

/-! ## Events (src/client.rs) -/

inductive UpdateEvent where
  | attentionIcon (v : Option String)
  | icon (v : Option String)
  | overlayIcon (v : Option String)
  | status (v : Status)
  | title (v : Option String)
  | tooltip (v : Option Tooltip)
  | menu (v : TrayMenu)
  | menuDiff (v : List MenuDiff)
  | menuConnect (v : String)

inductive Event where
  | add (address : String) (item : StatusNotifierItem)
  | update (address : String) (upd : UpdateEvent)
  | remove (address : String)

/-- The address string carried by an event. -/
def Event.address : Event → String
  | .add a _ => a
  | .update a _ => a
  | .remove a => a

def Event.isAdd : Event → Bool
  | .add _ _ => true
  | _ => false

def Event.isRemove : Event → Bool
  | .remove _ => true
  | _ => false

/-- Whether an event is one of the two update kinds sent by the
`watch_menu` task (`Update::Menu` or `Update::MenuDiff`). -/
def Event.isMenuUpdate : Event → Bool
  | .update _ (.menu _) => true
  | .update _ (.menuDiff _) => true
  | _ => false

/-- The update kinds produced by `get_update_event`, i.e. the ones
`watch_item_properties` can broadcast. -/
def UpdateEvent.isPropertyUpdate : UpdateEvent → Bool
  | .attentionIcon _ => true
  | .icon _ => true
  | .overlayIcon _ => true
  | .status _ => true
  | .title _ => true
  | .tooltip _ => true
  | _ => false

/-! ## `Client::handle_item` (src/client.rs)

`handle_item` parses the incoming address, builds a properties proxy at
`(destination, path)`, fetches all properties (`get_item_properties`,
whose outcome — transport result of `GetAll` — is an input of the model),
and on success inserts `(destination, item)` into the shared store and
broadcasts `Add(destination, item)` followed, when the item carries a
menu path, by `Update(destination, MenuConnect(menu))`.  Any error
returns early: nothing is inserted and no event is sent. -/

structure HandleOutcome where
  storeInsert : String × StatusNotifierItem
  events : List Event

/-- The events sent synchronously by `handle_item` for a decoded item. -/
def handleItemEvents (destination : String) (item : StatusNotifierItem) :
    List Event :=
  Event.add destination item ::
    (match item.menu with
     | some menu => [Event.update destination (UpdateEvent.menuConnect menu)]
     | none => [])

/-- `Client::handle_item`, with the `GetAll` transport outcome supplied as
input. -/
def handle_item (address : String) (fetchAll : Except Error DBusProps) :
    Except Error HandleOutcome := do
  let destination := (parse_address address).1
  let props ← fetchAll
  let properties ← StatusNotifierItem.tryFromProps props
  pure { storeInsert := (destination, properties),
         events := handleItemEvents destination properties }

/-! ## `Client::get_update_event` property-name computation
(src/client.rs)

For the six known signal members the property to re-fetch is fixed; any
other member has its first `"New".len() = 3` characters sliced off.  Rust
slicing `&s[3..]` panics when the string is shorter than 3 bytes; the
panic is modelled as `none`.  (D-Bus member names are ASCII, so bytes and
characters coincide.) -/

def update_property_name (member : String) : Option String :=
  if member = "NewAttentionIcon" then some "AttentionIconName"
  else if member = "NewIcon" then some "IconName"
  else if member = "NewOverlayIcon" then some "OverlayIconName"
  else if member = "NewStatus" then some "Status"
  else if member = "NewTitle" then some "Title"
  else if member = "NewToolTip" then some "ToolTip"
  else if 3 ≤ member.length then some (String.mk (member.data.drop 3))
  else none

/-- The six explicitly handled signal member names. -/
def handledMembers : List String :=
  ["NewAttentionIcon", "NewIcon", "NewOverlayIcon",
   "NewStatus", "NewTitle", "NewToolTip"]

/-! ## `Client::activate` (src/client.rs)

The proxy construction and the wrapped bus call are network effects; the
model takes their outcomes as inputs.  `timeout_event!` wraps the call in
`timeout(Duration::from_secs(1), event)` and only tests `is_err()` of the
*timeout* — a call that completes within the timeout has its own result
discarded, and an elapsed timeout merely logs.  Either way execution
falls through to `Ok(())`.  Proxy-construction errors propagate via `?`. -/

/-- Duration passed to `timeout` in `activate`, in seconds. -/
def activateTimeoutSecs : Nat := 1

/-- Outcome of the wrapped bus call: completed within the timeout (with
its result), or the timeout elapsed first. -/
inductive CallOutcome where
  | completed (result : Except Error Unit)
  | timedOut

/-- `Client::activate` for any request shape: build the proxy, run the
call under the 1-second timeout, return `Ok(())` unless proxy
construction failed. -/
def activate (proxy : Except Error Unit) (call : CallOutcome) :
    Except Error Unit :=
  match proxy with
  | .error e => .error e
  | .ok _ =>
    match call with
    | .timedOut => .ok ()
    | .completed _ => .ok ()

/-! ## Client event-emission transition system (src/client.rs)

Every emitter that shares the broadcast channel and the item store is
modelled as a labelled transition system: `handle_item` (registration),
the per-item `watch_item_properties` task (property updates and the
disconnect `Remove`), the per-menu `watch_menu` task (`Update::Menu` and
`Update::MenuDiff`, spawned by `handle_item` when the item carries a menu
path, running until its own layout fetch fails — it is *not* stopped when
the item tracker exits), and the `NameAcquired` handler of `Client::new`
(watcher replacement, which clears the store and emits `Remove` per
stored key while the per-item and per-menu tasks keep running).  Network
input — which item registers, which signal fires, in which interleaving —
is the nondeterminism of the relation.

State components: `handled` holds the raw addresses already delivered by
the watcher (the watcher deduplicates registrations, so a registration is
only delivered for an address not currently handled; a replacement
watcher re-sends everything, so `NameAcquired` resets the set); `alive`
holds one entry per running `watch_item_properties` task, keyed by its
destination; `menus` holds one entry per running `watch_menu` task,
keyed by its destination; `store` holds the key set of the shared item
`HashMap`; `trace` is the sequence of events broadcast so far, oldest
first. -/

structure SysState where
  handled : List String
  alive : List String
  menus : List String
  store : List String
  trace : List Event

/-- `HashMap::insert` on the store's key set. -/
def storeInsertKey (k : String) (store : List String) : List String :=
  if k ∈ store then store else k :: store

/-- The menu-tracker tasks after `handle_item`: a `watch_menu` task is
spawned for the destination exactly when the item carries a menu path. -/
def spawnMenu (destination : String) (item : StatusNotifierItem)
    (menus : List String) : List String :=
  match item.menu with
  | some _ => destination :: menus
  | none => menus

inductive StepLabel where
  | registerItem (address : String)
  | propChange (destination : String)
  | disconnect (destination : String)
  | menuUpdate (destination : String)
  | menuStop (destination : String)
  | nameAcquired
  deriving Repr, DecidableEq

inductive Step : SysState → StepLabel → SysState → Prop where
  /-- A `StatusNotifierItemRegistered` delivery for a fresh address whose
  `handle_item` run succeeds: store insert, `Add` (plus `MenuConnect`)
  broadcast, `watch_item_properties` task spawned, and a `watch_menu`
  task spawned when the item has a menu path. -/
  | registerItem (s : SysState) (address : String)
      (fetchAll : Except Error DBusProps) (outcome : HandleOutcome)
      (hfresh : address ∉ s.handled)
      (hrun : handle_item address fetchAll = .ok outcome) :
      Step s (.registerItem address)
        { handled := address :: s.handled,
          alive := outcome.storeInsert.1 :: s.alive,
          menus := spawnMenu outcome.storeInsert.1 outcome.storeInsert.2 s.menus,
          store := storeInsertKey outcome.storeInsert.1 s.store,
          trace := s.trace ++ outcome.events }
  /-- A property-change signal decoded by a running
  `watch_item_properties` task (`get_update_event` yields only the six
  property kinds): `Update(destination, event)` broadcast. -/
  | propChange (s : SysState) (destination : String) (u : UpdateEvent)
      (hkind : u.isPropertyUpdate = true)
      (halive : destination ∈ s.alive) :
      Step s (.propChange destination)
        { handled := s.handled,
          alive := s.alive,
          menus := s.menus,
          store := s.store,
          trace := s.trace ++ [.update destination u] }
  /-- The item's bus name loses its owner: the running
  `watch_item_properties` task removes the key from the store, broadcasts
  `Remove(destination)` and exits.  The item's `watch_menu` task is not
  stopped. -/
  | disconnect (s : SysState) (destination : String)
      (halive : destination ∈ s.alive) :
      Step s (.disconnect destination)
        { handled := s.handled,
          alive := s.alive.erase destination,
          menus := s.menus,
          store := s.store.erase destination,
          trace := s.trace ++ [.remove destination] }
  /-- A `LayoutUpdated` signal handled by a running `watch_menu` task:
  the refreshed layout is broadcast as `Update(destination, Menu(..))`. -/
  | menuLayout (s : SysState) (destination : String) (tm : TrayMenu)
      (hmenu : destination ∈ s.menus) :
      Step s (.menuUpdate destination)
        { handled := s.handled,
          alive := s.alive,
          menus := s.menus,
          store := s.store,
          trace := s.trace ++ [.update destination (.menu tm)] }
  /-- An `ItemsPropertiesUpdated` signal handled by a running
  `watch_menu` task: broadcast as `Update(destination, MenuDiff(..))`. -/
  | menuDiffUpdate (s : SysState) (destination : String)
      (ds : List MenuDiff) (hmenu : destination ∈ s.menus) :
      Step s (.menuUpdate destination)
        { handled := s.handled,
          alive := s.alive,
          menus := s.menus,
          store := s.store,
          trace := s.trace ++ [.update destination (.menuDiff ds)] }
  /-- A `watch_menu` task exits (layout fetch error or timeout): no event
  is broadcast. -/
  | menuStop (s : SysState) (destination : String)
      (hmenu : destination ∈ s.menus) :
      Step s (.menuStop destination)
        { handled := s.handled,
          alive := s.alive,
          menus := s.menus.erase destination,
          store := s.store,
          trace := s.trace }
  /-- `NameAcquired` for the watcher bus name: every key is removed from
  the store and a `Remove` is broadcast for it.  Neither the per-item nor
  the per-menu tasks are stopped. -/
  | nameAcquired (s : SysState) :
      Step s .nameAcquired
        { handled := [],
          alive := s.alive,
          menus := s.menus,
          store := [],
          trace := s.trace ++ s.store.map Event.remove }

/-- Executions from the freshly initialized client, recording the labels
of the steps taken, oldest first. -/
inductive ReachVia : SysState → List StepLabel → Prop where
  | init : ReachVia ⟨[], [], [], [], []⟩ []
  | step {s : SysState} {ls : List StepLabel} {l : StepLabel} {t : SysState} :
      ReachVia s ls → Step s l t → ReachVia t (ls ++ [l])

/-- Number of events carrying address `a` in a trace. -/
def eventsFor (a : String) (tr : List Event) : Nat :=
  tr.countP (fun e => e.address == a)

/-- Number of `Add` events for address `a`. -/
def addsFor (a : String) (tr : List Event) : Nat :=
  tr.countP (fun e => e.address == a && e.isAdd)

/-- Number of `Remove` events for address `a`. -/
def removesFor (a : String) (tr : List Event) : Nat :=
  tr.countP (fun e => e.address == a && e.isRemove)

/-- The destinations of the addresses registered along an execution. -/
def registeredDests (ls : List StepLabel) : List String :=
  ls.filterMap (fun l => match l with
    | .registerItem address => some (parse_address address).1
    | _ => none)

/-- Every non-`Add` event for address `a` is preceded by exactly one `Add`
for `a`. -/
def addBefore (a : String) (tr : List Event) : Prop :=
  ∀ p e q, tr = p ++ e :: q → e.address = a → e.isAdd = false →
    addsFor a p = 1

/-- Nothing for address `a` follows a `Remove` for `a`. -/
def removeLast (a : String) (tr : List Event) : Prop :=
  ∀ p e q, tr = p ++ e :: q → e.address = a → e.isRemove = true →
    eventsFor a q = 0

/-- After a `Remove` for address `a`, the only events for `a` are
menu-tracker updates (`Update::Menu` / `Update::MenuDiff`). -/
def removeLastExceptMenu (a : String) (tr : List Event) : Prop :=
  ∀ p e q, tr = p ++ e :: q → e.address = a → e.isRemove = true →
    ∀ f ∈ q, f.address = a → f.isMenuUpdate = true

/-- The per-address lifecycle property asserted of every emitted event
sequence: `Add` exactly once before any `Update`/`Remove` for the
address, `Remove` at most once, and nothing after a `Remove`. -/
def singleAddressLifecycle : Prop :=
  ∀ (s : SysState) (ls : List StepLabel), ReachVia s ls → ∀ a : String,
    addsFor a s.trace ≤ 1 ∧
    removesFor a s.trace ≤ 1 ∧
    addBefore a s.trace ∧
    removeLast a s.trace

/-! ## Concrete test vectors used in theorem statements -/

/-- The item decoded from a property map carrying only `Id = "foo"`. -/
def minimalItem : StatusNotifierItem :=
  { id := "foo", category := .applicationStatus, title := none,
    status := .unknown, window_id := 0, icon_theme_path := none,
    icon_name := none, icon_pixmap := none, overlay_icon_name := none,
    overlay_icon_pixmap := none, attention_icon_name := none,
    attention_icon_pixmap := none, attention_movie_name := none,
    tool_tip := none, item_is_menu := false, menu := none }

/-- The item decoded from a property map carrying `Id = "foo"` and
`Menu = /MenuBar`. -/
def menuBarItem : StatusNotifierItem :=
  { minimalItem with menu := some "/MenuBar" }

/-- The `ItemsPropertiesUpdated` payload of the merge scenario:
`updated = [(7, {enabled: false}), (9, {label: "Quit"})]`,
`removed = [(7, ["icon-name"])]`. -/
def examplePropertiesUpdate : PropertiesUpdate :=
  { updated := [{ id := 7, fields := [("enabled", DValue.bool false)] },
                { id := 9, fields := [("label", DValue.str "Quit")] }],
    removed := [{ id := 7, fields := ["icon-name"] }] }

end SystemTray

namespace SystemTray

/-! ## Helper lemmas -/

theorem splitOnceSlash_eq_none {l : List Char} (h : '/' ∉ l) :
    splitOnceSlash l = none := by
  induction l with
  | nil => rfl
  | cons c rest ih =>
    simp only [List.mem_cons, not_or] at h
    simp only [splitOnceSlash, if_neg (Ne.symm h.1), ih h.2, Option.map_none']

theorem splitOnceSlash_append {d p : List Char} (h : '/' ∉ d) :
    splitOnceSlash (d ++ '/' :: p) = some (d, p) := by
  induction d with
  | nil => simp [splitOnceSlash]
  | cons c rest ih =>
    simp only [List.mem_cons, not_or] at h
    simp only [List.cons_append, splitOnceSlash, if_neg (Ne.symm h.1),
      List.append_eq, ih h.2, Option.map_some']

theorem string_mk_data (s : String) : String.mk s.data = s := rfl

theorem handleItemEvents_address (d : String) (item : StatusNotifierItem) :
    ∀ e ∈ handleItemEvents d item, e.address = d := by
  intro e he
  unfold handleItemEvents at he
  cases hm : item.menu with
  | none =>
    rw [hm] at he
    simp only [List.mem_cons, List.not_mem_nil, or_false] at he
    subst he; rfl
  | some m =>
    rw [hm] at he
    simp only [List.mem_cons, List.not_mem_nil, or_false] at he
    rcases he with he | he <;> (subst he; rfl)

/-! ## Claim theorems -/

/-- Claim C3: `parse_address` splits `bus-name/object/path` at the first
slash into the bus name and the slash-prefixed object path; a slash-free
input is a bare bus name whose object path defaults to
`/StatusNotifierItem`; and the three end-to-end examples decode as the
spec states. -/
theorem parse_address_spec :
    (∀ s : String, '/' ∉ s.data → parse_address s = (s, "/StatusNotifierItem")) ∧
    (∀ d p : String, '/' ∉ d.data →
      parse_address (d ++ "/" ++ p) = (d, "/" ++ p)) ∧
    parse_address ":1.58/StatusNotifierItem" = (":1.58", "/StatusNotifierItem") ∧
    parse_address ":1.72/org/ayatana/NotificationItem/dropbox_client_1398" =
      (":1.72", "/org/ayatana/NotificationItem/dropbox_client_1398") ∧
    parse_address ":1.9" = (":1.9", "/StatusNotifierItem") := by
  refine ⟨?_, ?_, rfl, rfl, rfl⟩
  · intro s h
    simp only [parse_address, splitOnceSlash_eq_none h]
  · intro d p h
    have hdata : (d ++ "/" ++ p).data = d.data ++ '/' :: p.data := by
      simp [String.data_append]
    have hsplit : splitOnceSlash (d ++ "/" ++ p).data = some (d.data, p.data) := by
      rw [hdata]; exact splitOnceSlash_append h
    have hslash : ("/" ++ p) = String.mk ('/' :: p.data) := by
      have hd : ("/" ++ p).data = '/' :: p.data := by simp [String.data_append]
      exact (string_mk_data _).symm.trans (congrArg String.mk hd)
    simp only [parse_address, hsplit, string_mk_data]
    exact congrArg (Prod.mk d) hslash.symm

/-- Claim C3 witness: the universal clauses applied at concrete inputs. -/
theorem parse_address_spec_witness :
    parse_address "org.kde.StatusNotifierHost" =
      ("org.kde.StatusNotifierHost", "/StatusNotifierItem") :=
  parse_address_spec.1 "org.kde.StatusNotifierHost" (by decide)

/-- Claim C5: a property map carrying only `Id = "foo"` decodes to a
`StatusNotifierItem` with `id = "foo"`, `category = ApplicationStatus`,
`status = Unknown`, `window_id = 0`, `item_is_menu = false`, and every
optional field `none`. -/
theorem minimal_item_decode :
    StatusNotifierItem.tryFromProps [("Id", DValue.str "foo")] =
      .ok { id := "foo", category := .applicationStatus, title := none,
            status := .unknown, window_id := 0, icon_theme_path := none,
            icon_name := none, icon_pixmap := none, overlay_icon_name := none,
            overlay_icon_pixmap := none, attention_icon_name := none,
            attention_icon_pixmap := none, attention_movie_name := none,
            tool_tip := none, item_is_menu := false, menu := none } := rfl

/-- Claim C7 (evaluation of the defect): decoding the well-formed pixmap
structure `(width = 2, height = 3, bytes = [])` yields `height = 2` — the
source reads the height from the structure's first field (the width)
instead of its second. -/
theorem icon_pixmap_height_eval :
    IconPixmap.from_array
        [DValue.structV [DValue.i32 2, DValue.i32 3, DValue.arr []]] =
      .ok [{ width := 2, height := 2, pixels := [] }] ∧
    (2 : Int) ≠ 3 := ⟨rfl, by decide⟩

/-- Claim C8: the mnemonic-stripping rule applied to menu labels
(`label.replace('_', "")`, i.e. remove every underscore) is idempotent,
and is the identity on labels containing no underscore. -/
theorem strip_label_idempotent :
    ∀ s : String, stripUnderscores (stripUnderscores s) = stripUnderscores s ∧
      ('_' ∉ s.data → stripUnderscores s = s) := by
  intro s
  constructor
  · show String.mk ((s.data.filter _).filter _) = _
    rw [List.filter_filter]
    simp only [Bool.and_self]
    rfl
  · intro h
    show String.mk (s.data.filter _) = s
    rw [List.filter_eq_self.mpr, string_mk_data]
    intro a ha
    simp only [decide_eq_true_eq]
    exact fun hEq => h (hEq ▸ ha)

/-- Claim C8 witness: idempotence and already-stripped identity at
concrete labels. -/
theorem strip_label_idempotent_witness :
    stripUnderscores (stripUnderscores "_Quit") = stripUnderscores "_Quit" ∧
    stripUnderscores "Quit" = "Quit" :=
  ⟨(strip_label_idempotent "_Quit").1,
   (strip_label_idempotent "Quit").2 (by decide)⟩

/-- Claim C9 (evaluation of the defect): `activate` wraps the bus call in
a 1-second timeout and returns success on expiry, and propagates
proxy-construction errors; but a bus-call error that completes within the
timeout is discarded — `activate` still returns success, where the claim
(and the method's own doc comment) requires the error to be returned. -/
theorem activate_error_eval :
    activate (.ok ()) (.completed (.error (.zbus "event call failed"))) = .ok () ∧
    activate (.ok ()) .timedOut = .ok () ∧
    (∀ (e : Error) (c : CallOutcome), activate (.error e) c = .error e) ∧
    activateTimeoutSecs = 1 :=
  ⟨rfl, rfl, fun _ _ => rfl, rfl⟩

/-- Claim C10: for the six handled signal members the re-fetched property
name is the fixed table entry; any other member has its first three
characters removed, which is a panic (modelled `none`) exactly when the
member is shorter than three characters, and is defined whenever the
member has length at least 3 (in particular for every member starting
with `"New"` of length at least 3). -/
theorem update_property_name_spec :
    update_property_name "NewAttentionIcon" = some "AttentionIconName" ∧
    update_property_name "NewIcon" = some "IconName" ∧
    update_property_name "NewOverlayIcon" = some "OverlayIconName" ∧
    update_property_name "NewStatus" = some "Status" ∧
    update_property_name "NewTitle" = some "Title" ∧
    update_property_name "NewToolTip" = some "ToolTip" ∧
    (∀ m : String, m.length < 3 → update_property_name m = none) ∧
    (∀ m : String, m ∉ handledMembers → 3 ≤ m.length →
      update_property_name m = some (String.mk (m.data.drop 3))) ∧
    (∀ m : String, 3 ≤ m.length → (update_property_name m).isSome = true) := by
  refine ⟨rfl, rfl, rfl, rfl, rfl, rfl, ?_, ?_, ?_⟩
  · intro m h
    unfold update_property_name
    split_ifs with h1 h2 h3 h4 h5 h6 h7
    all_goals first
      | rfl
      | (subst_vars; exact absurd h (by decide))
      | omega
  · intro m hmem hlen
    simp only [handledMembers, List.mem_cons, List.mem_singleton, not_or,
      List.not_mem_nil, or_false] at hmem
    unfold update_property_name
    split_ifs with h1 h2 h3 h4 h5 h6
    all_goals simp_all
  · intro m hlen
    unfold update_property_name
    split_ifs <;> simp_all

/-- Claim C10 witness: the universal clauses applied at concrete members
(`"Ne"` is too short and panics; `"NewMenu"` is unhandled and sliced). -/
theorem update_property_name_spec_witness :
    update_property_name "Ne" = none ∧
    update_property_name "NewMenu" = some (String.mk ("NewMenu".data.drop 3)) ∧
    (update_property_name "NewMenu").isSome = true :=
  ⟨update_property_name_spec.2.2.2.2.2.2.1 "Ne" (by decide),
   update_property_name_spec.2.2.2.2.2.2.2.1 "NewMenu" (by decide) (by decide),
   update_property_name_spec.2.2.2.2.2.2.2.2 "NewMenu" (by decide)⟩

/-- Claim C2: the key `handle_item` inserts into the shared store and the
address carried by every event it broadcasts are the destination
component of the parsed address — the object path is discarded — so two
addresses sharing a bus connection but differing in object path yield the
same store key and event address. -/
theorem handle_item_address_destination :
    (∀ (address : String) (fetchAll : Except Error DBusProps)
       (r : HandleOutcome), handle_item address fetchAll = .ok r →
      r.storeInsert.1 = (parse_address address).1 ∧
      ∀ e ∈ r.events, e.address = (parse_address address).1) ∧
    (parse_address ":1.7/StatusNotifierItem").1 = ":1.7" ∧
    (parse_address ":1.7/org/other/Item").1 = ":1.7" := by
  refine ⟨?_, rfl, rfl⟩
  intro address fetchAll r h
  cases fetchAll with
  | error e =>
    simp only [handle_item, bind, Except.bind] at h
    exact Except.noConfusion h
  | ok props =>
    cases hprops : StatusNotifierItem.tryFromProps props with
    | error e =>
      simp only [handle_item, bind, Except.bind, hprops] at h
      exact Except.noConfusion h
    | ok item =>
      simp only [handle_item, bind, Except.bind, hprops, pure, Except.pure,
        Except.ok.injEq] at h
      cases h
      exact ⟨rfl, handleItemEvents_address _ item⟩

/-- Claim C2 witness: the per-outcome clause applied at a concrete
successful registration. -/
theorem handle_item_address_destination_witness :
    ({ storeInsert := (":1.9", minimalItem),
       events := [Event.add ":1.9" minimalItem] } : HandleOutcome).storeInsert.1 =
      (parse_address ":1.9").1 :=
  (handle_item_address_destination.1 ":1.9" (.ok [("Id", DValue.str "foo")])
    { storeInsert := (":1.9", minimalItem),
      events := [Event.add ":1.9" minimalItem] } rfl).1

/-- Claim C4 counterexample: a property map where `Id` is present (as the
string `"foo"`) but `Title` carries a non-string value makes
`StatusNotifierItem` construction fail, so construction failure is not
equivalent to `Id` being absent. -/
theorem item_construction_iff_counterexample :
    (([("Id", DValue.str "foo"), ("Title", DValue.i32 0)] : DBusProps).lookup
        "Id").isSome = true ∧
    StatusNotifierItem.tryFromProps
        [("Id", DValue.str "foo"), ("Title", DValue.i32 0)] =
      .error (.zbusVariant "type mismatch") := ⟨rfl, rfl⟩

/-- Claim C4 (amended): construction fails with `MissingProperty("Id")`
whenever `Id` is absent (with `Id` present it can additionally fail when
a present property carries the wrong wire type); on any construction
failure `handle_item` propagates the error, inserting nothing and
emitting no event; success implies `Id` was present; and unknown
`Category`/`Status` strings decode to their documented defaults rather
than failing. -/
theorem item_construction_amended :
    (∀ props : DBusProps, props.lookup "Id" = none →
      StatusNotifierItem.tryFromProps props = .error (.missingProperty "Id")) ∧
    (∀ (props : DBusProps) (e : Error),
      StatusNotifierItem.tryFromProps props = .error e →
      ∀ address : String, handle_item address (.ok props) = .error e) ∧
    (∀ (props : DBusProps) (item : StatusNotifierItem),
      StatusNotifierItem.tryFromProps props = .ok item →
      (props.lookup "Id").isSome = true) ∧
    (∀ c s : String, StatusNotifierItem.tryFromProps
        [("Id", DValue.str "foo"), ("Category", DValue.str c),
         ("Status", DValue.str s)] =
      .ok { minimalItem with category := Category.fromStr c,
                             status := Status.fromStr s }) ∧
    (∀ c : String, c ∉ ["Communications", "SystemServices", "Hardware"] →
      Category.fromStr c = .applicationStatus) ∧
    (∀ s : String, s ∉ ["Passive", "Active", "NeedsAttention"] →
      Status.fromStr s = .unknown) := by
  refine ⟨?_, ?_, ?_, ?_, ?_, ?_⟩
  · intro props h
    simp [StatusNotifierItem.tryFromProps, DBusProps.get_string, h]
  · intro props e h address
    simp only [handle_item, bind, Except.bind, h]
  · intro props item h
    cases hid : props.lookup "Id" with
    | none =>
      rw [StatusNotifierItem.tryFromProps] at h
      simp [DBusProps.get_string, hid] at h
    | some v => rfl
  · intro c s; rfl
  · intro c hc
    simp only [List.mem_cons, List.not_mem_nil, not_or, or_false] at hc
    unfold Category.fromStr
    split <;> simp_all
  · intro s hs
    simp only [List.mem_cons, List.not_mem_nil, not_or, or_false] at hs
    unfold Status.fromStr
    split <;> simp_all

/-- Claim C4 witness: the amended clauses applied at concrete property
maps. -/
theorem item_construction_amended_witness :
    StatusNotifierItem.tryFromProps [("Title", DValue.str "bar")] =
      .error (.missingProperty "Id") ∧
    handle_item ":1.9" (.ok [("Title", DValue.str "bar")]) =
      .error (.missingProperty "Id") ∧
    Category.fromStr "SomethingElse" = .applicationStatus ∧
    Status.fromStr "SomethingElse" = .unknown := by
  refine ⟨item_construction_amended.1 [("Title", DValue.str "bar")] rfl,
    item_construction_amended.2.1 [("Title", DValue.str "bar")]
      (.missingProperty "Id")
      (item_construction_amended.1 [("Title", DValue.str "bar")] rfl) ":1.9",
    item_construction_amended.2.2.2.2.1 "SomethingElse" (by decide),
    item_construction_amended.2.2.2.2.2 "SomethingElse" (by decide)⟩

end SystemTray
namespace SystemTray

/-! ## Lemmas about the diff-merge map -/

theorem replace_keysOf (m : DiffMap) (k : Int) (v : MenuDiff) :
    keysOf (List.map (fun p => if p.1 == k then (k, v) else p) m) = keysOf m := by
  unfold keysOf
  rw [List.map_map]
  apply List.map_congr_left
  intro p _
  by_cases h : p.1 == k
  · simp only [Function.comp, h, if_true]
    exact (eq_of_beq h).symm
  · simp [Function.comp, h]

theorem replaceId_keysOf (m : DiffMap) (k : Int) (names : List String) :
    keysOf (List.map (fun p =>
      if p.1 == k then (p.1, { p.2 with remove := names }) else p) m) =
      keysOf m := by
  unfold keysOf
  rw [List.map_map]
  apply List.map_congr_left
  intro p _
  by_cases h : p.1 == k <;> simp [Function.comp, h]

theorem append_goodKeys {m : DiffMap} {k : Int} {v : MenuDiff}
    (hg : GoodMap m) (hv : v.id = k) (hk : k ∉ keysOf m) :
    GoodMap (m ++ [(k, v)]) ∧
      (∀ i, i ∈ keysOf (m ++ [(k, v)]) ↔ i ∈ keysOf m ∨ i = k) := by
  have hkeys : keysOf (m ++ [(k, v)]) = keysOf m ++ [k] := by
    simp [keysOf]
  refine ⟨⟨?_, ?_⟩, ?_⟩
  · intro q hq
    rcases List.mem_append.mp hq with h | h
    · exact hg.1 q h
    · rw [List.mem_singleton.mp h]
      exact hv
  · rw [hkeys]
    simp only [List.nodup_append, List.nodup_singleton, true_and]
    exact ⟨hg.2, by simpa using hk⟩
  · intro i
    rw [hkeys]
    simp [List.mem_append]

theorem anyKey_mem {m : DiffMap} {k : Int}
    (hb : List.any m (fun p => p.1 == k) = true) : k ∈ keysOf m := by
  obtain ⟨p, hp, hpk⟩ := List.any_eq_true.mp hb
  exact List.mem_map.mpr ⟨p, hp, eq_of_beq hpk⟩

theorem anyKey_not_mem {m : DiffMap} {k : Int}
    (hb : List.any m (fun p => p.1 == k) = false) : k ∉ keysOf m := by
  intro hk
  obtain ⟨p, hp, hpk⟩ := List.mem_map.mp hk
  exact List.any_eq_false.mp hb p hp (beq_iff_eq.mpr hpk)

theorem insert_goodKeys {m : DiffMap} {k : Int} {v : MenuDiff}
    (hg : GoodMap m) (hv : v.id = k) :
    GoodMap (m.insert k v) ∧
      (∀ i, i ∈ keysOf (m.insert k v) ↔ i ∈ keysOf m ∨ i = k) := by
  unfold DiffMap.insert
  cases hb : List.any m (fun p => p.1 == k) with
  | true =>
    simp only [hb, if_true]
    refine ⟨⟨?_, (replace_keysOf m k v) ▸ hg.2⟩, ?_⟩
    · intro q hq
      obtain ⟨p, hp, hfp⟩ := List.mem_map.mp hq
      by_cases h : p.1 == k
      · rw [if_pos h] at hfp
        rw [← hfp]
        exact hv
      · rw [if_neg h] at hfp
        rw [← hfp]
        exact hg.1 p hp
    · intro i
      rw [replace_keysOf m k v]
      exact ⟨Or.inl, fun h => h.elim id (fun hik => hik ▸ anyKey_mem hb)⟩
  | false =>
    simp only [hb, Bool.false_eq_true, if_false]
    exact append_goodKeys hg hv (anyKey_not_mem hb)

theorem setRemove_goodKeys {m : DiffMap} {k : Int} {names : List String}
    (hg : GoodMap m) :
    GoodMap (m.setRemove k names) ∧
      (∀ i, i ∈ keysOf (m.setRemove k names) ↔ i ∈ keysOf m ∨ i = k) := by
  unfold DiffMap.setRemove
  cases hb : List.any m (fun p => p.1 == k) with
  | true =>
    simp only [hb, if_true]
    refine ⟨⟨?_, (replaceId_keysOf m k names) ▸ hg.2⟩, ?_⟩
    · intro q hq
      obtain ⟨p, hp, hfp⟩ := List.mem_map.mp hq
      by_cases h : p.1 == k
      · rw [if_pos h] at hfp
        rw [← hfp]
        exact hg.1 p hp
      · rw [if_neg h] at hfp
        rw [← hfp]
        exact hg.1 p hp
    · intro i
      rw [replaceId_keysOf m k names]
      exact ⟨Or.inl, fun h => h.elim id (fun hik => hik ▸ anyKey_mem hb)⟩
  | false =>
    simp only [hb, Bool.false_eq_true, if_false]
    exact append_goodKeys hg rfl (anyKey_not_mem hb)

theorem foldlM_updatedFold_goodKeys (us : List UpdatedProps) :
    ∀ m m' : DiffMap, List.foldlM updatedFold m us = .ok m' → GoodMap m →
      GoodMap m' ∧
        (∀ i, i ∈ keysOf m' ↔ i ∈ keysOf m ∨ i ∈ us.map (fun u => u.id)) := by
  induction us with
  | nil =>
    intro m m' h hg
    simp only [List.foldlM_nil, pure, Except.pure, Except.ok.injEq] at h
    subst h
    simpa using hg
  | cons u us ih =>
    intro m m' h hg
    rw [List.foldlM_cons] at h
    cases hc : MenuItemUpdate.tryFromUpdatedProps u with
    | error e =>
      rw [show updatedFold m u = .error e by
        simp [updatedFold, bind, Except.bind, hc]] at h
      simp only [bind, Except.bind] at h
      exact Except.noConfusion h
    | ok upd =>
      rw [show updatedFold m u =
          .ok (m.insert u.id { id := u.id, update := upd, remove := [] }) by
        simp [updatedFold, bind, Except.bind, hc, pure, Except.pure]] at h
      simp only [bind, Except.bind] at h
      obtain ⟨hg2, hkeys2⟩ := insert_goodKeys
        (v := { id := u.id, update := upd, remove := [] }) (k := u.id) hg rfl
      obtain ⟨hg', hkeys'⟩ := ih _ m' h hg2
      refine ⟨hg', ?_⟩
      intro i
      rw [hkeys' i, hkeys2 i]
      simp only [List.map_cons, List.mem_cons]
      tauto

theorem foldl_removedFold_goodKeys (rs : List RemovedProps) :
    ∀ m : DiffMap, GoodMap m →
      GoodMap (rs.foldl removedFold m) ∧
        (∀ i, i ∈ keysOf (rs.foldl removedFold m) ↔
          i ∈ keysOf m ∨ i ∈ rs.map (fun r => r.id)) := by
  induction rs with
  | nil =>
    intro m hg
    simpa using hg
  | cons r rs ih =>
    intro m hg
    rw [List.foldl_cons]
    obtain ⟨hg2, hkeys2⟩ := @setRemove_goodKeys m r.id r.fields hg
    obtain ⟨hg', hkeys'⟩ := ih (removedFold m r)
      (by exact hg2)
    refine ⟨hg', ?_⟩
    intro i
    rw [hkeys' i]
    rw [show removedFold m r = m.setRemove r.id r.fields from rfl, hkeys2 i]
    simp only [List.map_cons, List.mem_cons]
    tauto

theorem countP_values_eq (m : DiffMap) (hg : GoodMap m) (i : Int) :
    List.countP (fun d => d.id == i) (m.map (fun p => p.2)) =
      if i ∈ keysOf m then 1 else 0 := by
  rw [List.countP_map]
  have h1 : List.countP ((fun d : MenuDiff => d.id == i) ∘ (fun p => p.2)) m =
      List.countP (fun p : Int × MenuDiff => p.1 == i) m := by
    apply List.countP_congr
    intro p hp
    simp [Function.comp, hg.1 p hp]
  rw [h1]
  have h2 : List.countP (fun p : Int × MenuDiff => p.1 == i) m =
      List.count i (keysOf m) := by
    rw [List.count, keysOf, List.countP_map]
    rfl
  rw [h2]
  by_cases hm : i ∈ keysOf m
  · rw [if_pos hm]
    exact List.count_eq_one_of_mem hg.2 hm
  · rw [if_neg hm]
    exact List.count_eq_zero_of_not_mem hm

end SystemTray

namespace SystemTray

/-- Claim C6: converting an `ItemsPropertiesUpdated` payload yields exactly
one `MenuDiff` per id occurring in the updated or removed arrays (duplicate
ids merged, not duplicated); and the example payload with
`updated = [(7, {enabled: false}), (9, {label: "Quit"})]`,
`removed = [(7, ["icon-name"])]` produces diffs for exactly ids 7 and 9,
the id-7 diff carrying `update.enabled = some false` and
`remove = ["icon-name"]`. -/
theorem menu_diff_merge :
    (∀ (u : PropertiesUpdate) (ds : List MenuDiff), menuDiffsFrom u = .ok ds →
      ∀ i : Int, ds.countP (fun d => d.id == i) =
        if i ∈ u.updated.map (fun x => x.id) ++ u.removed.map (fun x => x.id)
        then 1 else 0) ∧
    menuDiffsFrom examplePropertiesUpdate = .ok
      [{ id := 7,
         update := { label := none, enabled := some false, visible := none,
                     icon_name := none, icon_data := none,
                     toggle_state := none, disposition := none },
         remove := ["icon-name"] },
       { id := 9,
         update := { label := some (some "Quit"), enabled := none,
                     visible := none, icon_name := none, icon_data := none,
                     toggle_state := none, disposition := none },
         remove := [] }] := by
  constructor
  · intro u ds h i
    cases hf : List.foldlM updatedFold ([] : DiffMap) u.updated with
    | error e =>
      rw [menuDiffsFrom, hf] at h
      simp only [bind, Except.bind] at h
      exact Except.noConfusion h
    | ok m1 =>
      rw [menuDiffsFrom, hf] at h
      simp only [bind, Except.bind, pure, Except.pure, Except.ok.injEq] at h
      subst h
      have hempty : GoodMap ([] : DiffMap) := ⟨by simp, by simp [keysOf]⟩
      obtain ⟨hg1, hkeys1⟩ := foldlM_updatedFold_goodKeys u.updated [] m1 hf hempty
      obtain ⟨hg2, hkeys2⟩ := foldl_removedFold_goodKeys u.removed m1 hg1
      rw [countP_values_eq _ hg2 i]
      have hiff : i ∈ keysOf (u.removed.foldl removedFold m1) ↔
          i ∈ u.updated.map (fun x => x.id) ++ u.removed.map (fun x => x.id) := by
        rw [hkeys2 i, hkeys1 i]
        simp only [keysOf, List.map_nil, List.not_mem_nil, false_or,
          List.mem_append]
      exact if_congr hiff rfl rfl
  · rfl

/-- Claim C6 witness: the universal merge clause applied at the example
payload and id 7. -/
theorem menu_diff_merge_witness :
    ([{ id := 7,
        update := { label := none, enabled := some false, visible := none,
                    icon_name := none, icon_data := none,
                    toggle_state := none, disposition := none },
        remove := ["icon-name"] },
      { id := 9,
        update := { label := some (some "Quit"), enabled := none,
                    visible := none, icon_name := none, icon_data := none,
                    toggle_state := none, disposition := none },
        remove := [] }] : List MenuDiff).countP (fun d => d.id == 7) =
      if (7 : Int) ∈ examplePropertiesUpdate.updated.map (fun x => x.id) ++
          examplePropertiesUpdate.removed.map (fun x => x.id)
      then 1 else 0 :=
  menu_diff_merge.1 examplePropertiesUpdate _ menu_diff_merge.2 7

end SystemTray

namespace SystemTray

/-! ## Lemmas about the client transition system -/

theorem handle_item_ok_shape {address : String}
    {fetchAll : Except Error DBusProps} {outcome : HandleOutcome}
    (h : handle_item address fetchAll = .ok outcome) :
    ∃ item : StatusNotifierItem,
      outcome = { storeInsert := ((parse_address address).1, item),
                  events := handleItemEvents (parse_address address).1 item } := by
  cases fetchAll with
  | error e =>
    simp only [handle_item, bind, Except.bind] at h
    exact Except.noConfusion h
  | ok props =>
    cases hprops : StatusNotifierItem.tryFromProps props with
    | error e =>
      simp only [handle_item, bind, Except.bind, hprops] at h
      exact Except.noConfusion h
    | ok item =>
      simp only [handle_item, bind, Except.bind, hprops, pure, Except.pure,
        Except.ok.injEq] at h
      exact ⟨item, h.symm⟩

/-- Claim C1 counterexample: the lifecycle property fails as stated, and
each restriction of the amendment is forced by a concrete reachable
execution.  (1) A watcher replacement (`NameAcquired`) broadcasts
`Remove(":1.9")` while the item's tracker keeps running, and the later
disconnect broadcasts a second `Remove(":1.9")`: the reachable trace
`[Add, Remove, Remove]` carries two removes.  (2) Without any watcher
replacement, registering `":1.9/A"` and `":1.9/B"` — two object paths on
one bus connection — broadcasts two `Add ":1.9"` events, so the
distinct-destinations hypothesis is necessary.  (3) Without any watcher
replacement and with a single registered destination, the item's
`watch_menu` task survives the disconnect and broadcasts
`Update(":1.9", Menu)` after `Remove(":1.9")`, so `Remove` need not be
last: only the menu-update exception remains provable. -/
theorem client_event_lifecycle_counterexample :
    ¬ singleAddressLifecycle ∧
    ¬ (∀ (s : SysState) (ls : List StepLabel), ReachVia s ls →
        StepLabel.nameAcquired ∉ ls →
        ∀ a : String, addsFor a s.trace ≤ 1) ∧
    ¬ (∀ (s : SysState) (ls : List StepLabel), ReachVia s ls →
        StepLabel.nameAcquired ∉ ls → (registeredDests ls).Nodup →
        ∀ a : String, removeLast a s.trace) := by
  refine ⟨?_, ?_, ?_⟩
  · intro h
    have h1 := ReachVia.step ReachVia.init
      (Step.registerItem ⟨[], [], [], [], []⟩ ":1.9"
        (.ok [("Id", DValue.str "foo")])
        { storeInsert := (":1.9", minimalItem),
          events := [Event.add ":1.9" minimalItem] }
        (by simp) rfl)
    have h2 := ReachVia.step h1 (Step.nameAcquired _)
    have h3 := ReachVia.step h2
      (Step.disconnect _ ":1.9" (List.mem_cons_self _ _))
    have hcount := (h _ _ h3 ":1.9").2.1
    simp only [removesFor, storeInsertKey, List.countP_append, List.countP_cons,
      List.countP_nil, List.map, Event.address, Event.isRemove,
      Event.isAdd] at hcount
    revert hcount
    decide
  · intro h
    have h1 := ReachVia.step ReachVia.init
      (Step.registerItem ⟨[], [], [], [], []⟩ ":1.9/A"
        (.ok [("Id", DValue.str "foo")])
        { storeInsert := (":1.9", minimalItem),
          events := [Event.add ":1.9" minimalItem] }
        (by simp) rfl)
    have h2 := ReachVia.step h1
      (Step.registerItem _ ":1.9/B" (.ok [("Id", DValue.str "foo")])
        { storeInsert := (":1.9", minimalItem),
          events := [Event.add ":1.9" minimalItem] }
        (by decide) rfl)
    have hcount := h _ _ h2 (by decide) ":1.9"
    simp only [addsFor, List.countP_append, List.countP_cons, List.countP_nil,
      Event.address, Event.isAdd] at hcount
    revert hcount
    decide
  · intro h
    have h1 := ReachVia.step ReachVia.init
      (Step.registerItem ⟨[], [], [], [], []⟩ ":1.9"
        (.ok [("Id", DValue.str "foo"), ("Menu", DValue.objPath "/MenuBar")])
        { storeInsert := (":1.9", menuBarItem),
          events := [Event.add ":1.9" menuBarItem,
                     Event.update ":1.9" (UpdateEvent.menuConnect "/MenuBar")] }
        (by simp) rfl)
    have h2 := ReachVia.step h1
      (Step.disconnect _ ":1.9" (List.mem_cons_self _ _))
    have h3 := ReachVia.step h2
      (Step.menuLayout _ ":1.9" ⟨0, []⟩ (List.mem_cons_self _ _))
    have hrl := h _ _ h3 (by decide) (by decide) ":1.9"
    have hres := hrl
      [Event.add ":1.9" menuBarItem,
       Event.update ":1.9" (UpdateEvent.menuConnect "/MenuBar")]
      (Event.remove ":1.9")
      [Event.update ":1.9" (UpdateEvent.menu ⟨0, []⟩)] rfl rfl rfl
    simp [eventsFor, List.countP_cons, List.countP_nil, Event.address] at hres

theorem snoc_split {tr : List Event} {x : Event} {p : List Event} {e : Event}
    {q : List Event} (h : tr ++ [x] = p ++ e :: q) :
    (p = tr ∧ e = x ∧ q = []) ∨ (∃ q', tr = p ++ e :: q' ∧ q = q' ++ [x]) := by
  rcases List.append_eq_append_iff.mp h with ⟨a', ha1, ha2⟩ | ⟨c', hc1, hc2⟩
  · cases a' with
    | nil =>
      simp only [List.nil_append] at ha2
      simp only [List.append_nil] at ha1
      cases ha2
      exact Or.inl ⟨ha1, rfl, rfl⟩
    | cons y a'' =>
      exfalso
      have hlen := congrArg List.length ha2
      simp only [List.length_cons, List.length_append, List.length_nil] at hlen
      omega
  · cases c' with
    | nil =>
      simp only [List.append_nil] at hc1
      cases hc2
      exact Or.inl ⟨hc1.symm, rfl, rfl⟩
    | cons y c'' =>
      cases hc2
      exact Or.inr ⟨c'', hc1, rfl⟩

theorem eventsFor_nil (a : String) : eventsFor a [] = 0 := rfl

theorem addBefore_nil (a : String) : addBefore a [] := by
  intro p e q hpq _ _
  exact absurd hpq (by simp)

theorem removeLastExceptMenu_nil (a : String) : removeLastExceptMenu a [] := by
  intro p e q hpq _ _
  exact absurd hpq (by simp)

theorem lifecycle_snoc_menu {a : String} {tr : List Event} {x : Event}
    (h3 : addBefore a tr) (h4 : removeLastExceptMenu a tr)
    (hx3 : x.address = a → x.isAdd = false → addsFor a tr = 1)
    (hx4 : x.address = a → x.isMenuUpdate = false → removesFor a tr = 0) :
    addBefore a (tr ++ [x]) ∧ removeLastExceptMenu a (tr ++ [x]) := by
  constructor
  · intro p e q hpq hea hia
    rcases snoc_split hpq with ⟨rfl, rfl, rfl⟩ | ⟨q', hq1, hq2⟩
    · exact hx3 hea hia
    · exact h3 p e q' hq1 hea hia
  · intro p e q hpq hea hir
    rcases snoc_split hpq with ⟨rfl, rfl, rfl⟩ | ⟨q', hq1, hq2⟩
    · intro f hf
      exact absurd hf (List.not_mem_nil f)
    · subst hq2
      intro f hf hfa
      rcases List.mem_append.mp hf with hf' | hf'
      · exact h4 p e q' hq1 hea hir f hf' hfa
      · have hfx : f = x := List.mem_singleton.mp hf'
        subst hfx
        by_contra hmu
        have hmu' : f.isMenuUpdate = false := by
          cases hb : f.isMenuUpdate
          · rfl
          · exact absurd hb hmu
        have h0 := hx4 hfa hmu'
        rw [hq1] at h0
        simp only [removesFor, List.countP_append, List.countP_cons, hea, hir,
          beq_self_eq_true, Bool.and_self, if_true] at h0
        omega

theorem addsFor_append (a : String) (t1 t2 : List Event) :
    addsFor a (t1 ++ t2) = addsFor a t1 + addsFor a t2 := by
  simp only [addsFor, List.countP_append]

theorem removesFor_append (a : String) (t1 t2 : List Event) :
    removesFor a (t1 ++ t2) = removesFor a t1 + removesFor a t2 := by
  simp only [removesFor, List.countP_append]

theorem addsFor_single_update (a dest : String) (u : UpdateEvent) :
    addsFor a [Event.update dest u] = 0 := by
  simp [addsFor, List.countP_cons, List.countP_nil, Event.isAdd]

theorem addsFor_single_remove (a dest : String) :
    addsFor a [Event.remove dest] = 0 := by
  simp [addsFor, List.countP_cons, List.countP_nil, Event.isAdd]

theorem removesFor_single_update (a dest : String) (u : UpdateEvent) :
    removesFor a [Event.update dest u] = 0 := by
  simp [removesFor, List.countP_cons, List.countP_nil, Event.isRemove]

theorem removesFor_single_remove (a dest : String) :
    removesFor a [Event.remove dest] = if a = dest then 1 else 0 := by
  by_cases h : a = dest
  · subst h
    simp [removesFor, List.countP_cons, List.countP_nil, Event.isRemove,
      Event.address]
  · simp [removesFor, List.countP_cons, List.countP_nil, Event.isRemove,
      Event.address, beq_eq_false_iff_ne.mpr (Ne.symm h), h]

theorem addsFor_handleItemEvents (a d : String) (item : StatusNotifierItem) :
    addsFor a (handleItemEvents d item) = if a = d then 1 else 0 := by
  by_cases h : a = d
  · subst h
    unfold handleItemEvents
    cases item.menu <;>
      simp [addsFor, List.countP_cons, List.countP_nil, Event.address,
        Event.isAdd]
  · have hb : (d == a) = false := beq_eq_false_iff_ne.mpr (Ne.symm h)
    unfold handleItemEvents
    cases item.menu <;>
      simp [addsFor, List.countP_cons, List.countP_nil, Event.address,
        Event.isAdd, hb, h]

theorem removesFor_handleItemEvents (a d : String) (item : StatusNotifierItem) :
    removesFor a (handleItemEvents d item) = 0 := by
  unfold handleItemEvents
  cases item.menu <;>
    simp [removesFor, List.countP_cons, List.countP_nil, Event.isRemove]

theorem registeredDests_append_register (ls : List StepLabel) (address : String) :
    registeredDests (ls ++ [.registerItem address]) =
      registeredDests ls ++ [(parse_address address).1] := by
  simp [registeredDests, List.filterMap_append, List.filterMap_cons]

theorem registeredDests_append_propChange (ls : List StepLabel) (dest : String) :
    registeredDests (ls ++ [.propChange dest]) = registeredDests ls := by
  simp [registeredDests, List.filterMap_append, List.filterMap_cons]

theorem registeredDests_append_disconnect (ls : List StepLabel) (dest : String) :
    registeredDests (ls ++ [.disconnect dest]) = registeredDests ls := by
  simp [registeredDests, List.filterMap_append, List.filterMap_cons]

theorem registeredDests_append_menuUpdate (ls : List StepLabel) (dest : String) :
    registeredDests (ls ++ [.menuUpdate dest]) = registeredDests ls := by
  simp [registeredDests, List.filterMap_append, List.filterMap_cons]

theorem registeredDests_append_menuStop (ls : List StepLabel) (dest : String) :
    registeredDests (ls ++ [.menuStop dest]) = registeredDests ls := by
  simp [registeredDests, List.filterMap_append, List.filterMap_cons]

theorem addsFor_single_add (a d : String) (item : StatusNotifierItem) :
    addsFor a [Event.add d item] = if a = d then 1 else 0 := by
  by_cases h : a = d
  · subst h
    simp [addsFor, List.countP_cons, List.countP_nil, Event.address,
      Event.isAdd]
  · simp [addsFor, List.countP_cons, List.countP_nil, Event.address,
      Event.isAdd, beq_eq_false_iff_ne.mpr (Ne.symm h), h]

theorem removesFor_single_add (a d : String) (item : StatusNotifierItem) :
    removesFor a [Event.add d item] = 0 := by
  simp [removesFor, List.countP_cons, List.countP_nil, Event.isRemove]

theorem reach_invariant {s : SysState} {ls : List StepLabel}
    (h : ReachVia s ls) :
    StepLabel.nameAcquired ∉ ls → (registeredDests ls).Nodup →
    ∀ a : String,
      addsFor a s.trace = (if a ∈ registeredDests ls then 1 else 0) ∧
      s.alive.count a + removesFor a s.trace =
        (if a ∈ registeredDests ls then 1 else 0) ∧
      (a ∈ s.menus → a ∈ registeredDests ls) ∧
      addBefore a s.trace ∧ removeLastExceptMenu a s.trace := by
  induction h with
  | init =>
    intro _ _ a
    exact ⟨by simp [addsFor, registeredDests],
      by simp [removesFor, registeredDests],
      fun hmem => absurd hmem (List.not_mem_nil a),
      addBefore_nil a, removeLastExceptMenu_nil a⟩
  | @step s' ls' l t rv st ih =>
    intro hna hnd a
    have hna' : StepLabel.nameAcquired ∉ ls' :=
      fun hmem => hna (List.mem_append.mpr (Or.inl hmem))
    cases st with
    | registerItem address fetchAll outcome hfresh hrun =>
      obtain ⟨item, rfl⟩ := handle_item_ok_shape hrun
      rw [registeredDests_append_register] at hnd ⊢
      have hdnotin : (parse_address address).1 ∉ registeredDests ls' := by
        have hsplit := List.nodup_append.mp hnd
        intro hmem
        exact hsplit.2.2 hmem (List.mem_singleton_self _)
      have hnd' : (registeredDests ls').Nodup := (List.nodup_append.mp hnd).1
      obtain ⟨ih1, ih2, ihm, ih3, ih4⟩ := ih hna' hnd' a
      dsimp only
      refine ⟨?_, ?_, ?_, ?_⟩
      · rw [addsFor_append, ih1, addsFor_handleItemEvents]
        by_cases had : a = (parse_address address).1
        · rw [if_neg (had ▸ hdnotin), if_pos had,
            if_pos (List.mem_append.mpr (Or.inr (had ▸ List.mem_singleton_self _)))]
        · rw [if_neg had]
          have hiff : (a ∈ registeredDests ls' ++ [(parse_address address).1]) ↔
              a ∈ registeredDests ls' := by simp [had]
          rw [if_congr hiff rfl rfl]
          exact Nat.add_zero _
      · rw [List.count_cons, removesFor_append, removesFor_handleItemEvents]
        by_cases had : a = (parse_address address).1
        · have hb : ((parse_address address).1 == a) = true :=
            beq_iff_eq.mpr had.symm
          rw [hb, if_pos rfl,
            if_pos (List.mem_append.mpr (Or.inr (had ▸ List.mem_singleton_self _)))]
          rw [if_neg (had ▸ hdnotin)] at ih2
          omega
        · have hb : ((parse_address address).1 == a) = false :=
            beq_eq_false_iff_ne.mpr (Ne.symm had)
          rw [hb]
          simp only [Bool.false_eq_true, if_false]
          have hiff : (a ∈ registeredDests ls' ++ [(parse_address address).1]) ↔
              a ∈ registeredDests ls' := by simp [had]
          rw [if_congr hiff rfl rfl]
          by_cases hmem : a ∈ registeredDests ls'
          · rw [if_pos hmem] at ih2 ⊢
            omega
          · rw [if_neg hmem] at ih2 ⊢
            omega
      · intro hmem
        cases hm2 : item.menu with
        | none =>
          simp only [spawnMenu, hm2] at hmem
          exact List.mem_append.mpr (Or.inl (ihm hmem))
        | some m =>
          simp only [spawnMenu, hm2] at hmem
          rcases List.mem_cons.mp hmem with hmem' | hmem'
          · exact List.mem_append.mpr (Or.inr (hmem' ▸ List.mem_singleton_self _))
          · exact List.mem_append.mpr (Or.inl (ihm hmem'))
      · -- addBefore and removeLastExceptMenu for the registration events
        have hrem0 : (parse_address address).1 = a →
            removesFor a s'.trace = 0 := by
          intro had
          rw [if_neg (had ▸ hdnotin)] at ih2
          omega
        have hadds0 : (parse_address address).1 = a →
            addsFor a s'.trace = 0 := by
          intro had
          rw [if_neg (had ▸ hdnotin)] at ih1
          exact ih1
        cases hm : item.menu with
        | none =>
          have hshape : handleItemEvents (parse_address address).1 item =
              [Event.add (parse_address address).1 item] := by
            unfold handleItemEvents
            rw [hm]
          rw [hshape]
          exact lifecycle_snoc_menu
            (x := Event.add (parse_address address).1 item)
            ih3 ih4 (fun _ hia => by simp [Event.isAdd] at hia)
            (fun hxa _ => hrem0 hxa)
        | some m =>
          have hshape : handleItemEvents (parse_address address).1 item =
              [Event.add (parse_address address).1 item] ++
                [Event.update (parse_address address).1
                  (UpdateEvent.menuConnect m)] := by
            unfold handleItemEvents
            rw [hm]
            rfl
          rw [hshape, ← List.append_assoc]
          obtain ⟨h3t, h4t⟩ := lifecycle_snoc_menu
            (x := Event.add (parse_address address).1 item)
            ih3 ih4 (fun _ hia => by simp [Event.isAdd] at hia)
            (fun hxa _ => hrem0 hxa)
          refine lifecycle_snoc_menu h3t h4t ?_ ?_
          · intro hya _
            have hya' : (parse_address address).1 = a := hya
            rw [addsFor_append, hadds0 hya', addsFor_single_add,
              if_pos hya'.symm]
          · intro hya _
            rw [removesFor_append, hrem0 hya, removesFor_single_add]
    | propChange dest u hkind halive =>
      rw [registeredDests_append_propChange] at hnd ⊢
      obtain ⟨ih1, ih2, ihm, ih3, ih4⟩ := ih hna' hnd a
      dsimp only
      have hstat : dest = a →
          addsFor a s'.trace = 1 ∧ removesFor a s'.trace = 0 := by
        intro had
        subst had
        have hc : 0 < s'.alive.count dest := List.count_pos_iff.mpr halive
        by_cases hmem : dest ∈ registeredDests ls'
        · rw [if_pos hmem] at ih1 ih2
          exact ⟨ih1, by omega⟩
        · rw [if_neg hmem] at ih2
          omega
      refine ⟨?_, ?_, ihm, ?_⟩
      · rw [addsFor_append, addsFor_single_update, Nat.add_zero]
        exact ih1
      · rw [removesFor_append, removesFor_single_update, Nat.add_zero]
        exact ih2
      · exact lifecycle_snoc_menu ih3 ih4
          (fun hxa _ => (hstat hxa).1)
          (fun hxa _ => (hstat hxa).2)
    | disconnect dest halive =>
      rw [registeredDests_append_disconnect] at hnd ⊢
      obtain ⟨ih1, ih2, ihm, ih3, ih4⟩ := ih hna' hnd a
      dsimp only
      have hstat : dest = a →
          addsFor a s'.trace = 1 ∧ removesFor a s'.trace = 0 := by
        intro had
        subst had
        have hc : 0 < s'.alive.count dest := List.count_pos_iff.mpr halive
        by_cases hmem : dest ∈ registeredDests ls'
        · rw [if_pos hmem] at ih1 ih2
          exact ⟨ih1, by omega⟩
        · rw [if_neg hmem] at ih2
          omega
      refine ⟨?_, ?_, ihm, ?_⟩
      · rw [addsFor_append, addsFor_single_remove, Nat.add_zero]
        exact ih1
      · rw [removesFor_append, removesFor_single_remove]
        by_cases had : a = dest
        · subst had
          rw [List.count_erase_self, if_pos rfl]
          have hc : 0 < s'.alive.count a := List.count_pos_iff.mpr halive
          omega
        · rw [List.count_erase_of_ne had, if_neg had]
          omega
      · exact lifecycle_snoc_menu ih3 ih4
          (fun hxa _ => (hstat hxa).1)
          (fun hxa _ => (hstat hxa).2)
    | menuLayout dest tm hmenu =>
      rw [registeredDests_append_menuUpdate] at hnd ⊢
      obtain ⟨ih1, ih2, ihm, ih3, ih4⟩ := ih hna' hnd a
      dsimp only
      refine ⟨?_, ?_, ihm, ?_⟩
      · rw [addsFor_append, addsFor_single_update, Nat.add_zero]
        exact ih1
      · rw [removesFor_append, removesFor_single_update, Nat.add_zero]
        exact ih2
      · refine lifecycle_snoc_menu ih3 ih4 ?_ ?_
        · intro hxa _
          have hda : dest = a := hxa
          have hmem : a ∈ registeredDests ls' := ihm (hda ▸ hmenu)
          rw [ih1, if_pos hmem]
        · intro _ hmu
          simp [Event.isMenuUpdate] at hmu
    | menuDiffUpdate dest ds hmenu =>
      rw [registeredDests_append_menuUpdate] at hnd ⊢
      obtain ⟨ih1, ih2, ihm, ih3, ih4⟩ := ih hna' hnd a
      dsimp only
      refine ⟨?_, ?_, ihm, ?_⟩
      · rw [addsFor_append, addsFor_single_update, Nat.add_zero]
        exact ih1
      · rw [removesFor_append, removesFor_single_update, Nat.add_zero]
        exact ih2
      · refine lifecycle_snoc_menu ih3 ih4 ?_ ?_
        · intro hxa _
          have hda : dest = a := hxa
          have hmem : a ∈ registeredDests ls' := ihm (hda ▸ hmenu)
          rw [ih1, if_pos hmem]
        · intro _ hmu
          simp [Event.isMenuUpdate] at hmu
    | menuStop dest hmenu =>
      rw [registeredDests_append_menuStop] at hnd ⊢
      obtain ⟨ih1, ih2, ihm, ih3, ih4⟩ := ih hna' hnd a
      dsimp only
      exact ⟨ih1, ih2, fun hmem => ihm (List.mem_of_mem_erase hmem), ih3, ih4⟩
    | nameAcquired =>
      exact absurd (List.mem_append.mpr (Or.inr (List.mem_singleton_self _))) hna

/-- Claim C1 (amended): in executions with no watcher-replacement
(`NameAcquired`) step and whose registered item addresses have pairwise
distinct destinations, every address sees `Add` at most once, every
non-`Add` event for an address is preceded by exactly one `Add` for it,
`Remove` occurs at most once, and the only events for an address that may
follow its `Remove` are menu updates (`Update::Menu` / `Update::MenuDiff`)
from the item's still-running `watch_menu` task.  (Each restriction is
forced: a watcher replacement emits an extra `Remove` for live items, two
registrations sharing a destination emit two `Add`s, and the undisposed
menu tracker can broadcast a menu update after the `Remove`.) -/
theorem client_event_lifecycle_amended :
    ∀ (s : SysState) (ls : List StepLabel), ReachVia s ls →
      StepLabel.nameAcquired ∉ ls → (registeredDests ls).Nodup →
      ∀ a : String,
        addsFor a s.trace ≤ 1 ∧
        removesFor a s.trace ≤ 1 ∧
        addBefore a s.trace ∧
        removeLastExceptMenu a s.trace := by
  intro s ls h hna hnd a
  obtain ⟨h1, h2, _, h3, h4⟩ := reach_invariant h hna hnd a
  refine ⟨?_, ?_, h3, h4⟩
  · rw [h1]
    split <;> omega
  · by_cases hmem : a ∈ registeredDests ls
    · rw [if_pos hmem] at h2
      omega
    · rw [if_neg hmem] at h2
      omega

/-- Claim C1 witness: the amended lifecycle applied to the concrete
execution register-then-disconnect of `":1.9"`. -/
theorem client_event_lifecycle_amended_witness :
    addsFor ":1.9" [Event.add ":1.9" minimalItem, Event.remove ":1.9"] ≤ 1 ∧
    removesFor ":1.9" [Event.add ":1.9" minimalItem, Event.remove ":1.9"] ≤ 1 := by
  have h1 := ReachVia.step ReachVia.init
    (Step.registerItem ⟨[], [], [], [], []⟩ ":1.9"
      (.ok [("Id", DValue.str "foo")])
      { storeInsert := (":1.9", minimalItem),
        events := [Event.add ":1.9" minimalItem] }
      (by simp) rfl)
  have h2 := ReachVia.step h1
    (Step.disconnect _ ":1.9" (List.mem_cons_self _ _))
  have hfull := client_event_lifecycle_amended _ _ h2
    (by simp) (by simp [registeredDests, List.filterMap_cons, parse_address,
      splitOnceSlash]) ":1.9"
  exact ⟨hfull.1, hfull.2.1⟩

end SystemTray
